import Mathlib

/-!
Verification of the semantic caching layer and resilient fetch client of a
medical-journal crawler bot. Shallow embedding of `vector_store.py`
(`VectorStore.add_article`, `VectorStore.search`, `VectorStore.save_store`,
`VectorStore.load_store`) and `pubmed_crawler.py`
(`PubMedCrawler._extract_abstract`, `PubMedCrawler._format_pub_date`,
`PubMedCrawler._safe_entrez_call`).

Modelling conventions:
* Embedding vectors are lists of rationals (`Vec`); the exact squared
  Euclidean distance computed by the flat L2 index is `sqDist`.
* The external sentence-transformer model is an opaque parameter
  (`embed : Article → Option Vec` for documents, `encode : String → Vec`
  for queries); `Option` models that `model.encode` can raise, which
  `add_article` catches and turns into a `false` return.
* The flat L2 index (`faiss.IndexFlatL2`) is embedded as the list of its
  vectors in insertion order; its exact k-nearest-neighbour query is `knn`,
  returning (position, distance) pairs ascending by distance, ties by
  insertion position.
* Python dict/list/str values reaching `_extract_abstract` are embedded as
  the inductive `PyVal`; dict field access is association-list lookup.
* `time.sleep` is not executed; the retry loop records the requested sleep
  durations (in seconds) so the backoff schedule can be stated.
* Method calls on the stateful `VectorStore` object become functions taking
  the store and returning the updated store where the method mutates it.
-/

namespace MedCrawler

/-- Canonical document record: the article dict built in
`PubMedCrawler.search_articles` / `get_article_by_pmid` and stored by
`VectorStore.add_article`.  `added_date` is stamped by `add_article`;
`similarity_score` is set only on copies returned by `search`. -/
structure Article where
  pmid : String
  title : String
  abstract : String
  authors : List String
  journal : String
  publication_date : String
  url : String
  keywords : List String
  publication_type : List String
  added_date : Option String := none
  similarity_score : Option ℚ := none
deriving DecidableEq

/-- An embedding vector (`np.ndarray` of floats, modelled exactly over ℚ). -/
abbrev Vec := List ℚ

/-- Squared Euclidean distance, the metric of `faiss.IndexFlatL2`. -/
def sqDist (x y : Vec) : ℚ := ((x.zip y).map (fun p => (p.1 - p.2) ^ 2)).sum

/-- In-memory state of `VectorStore`: the FAISS flat index (its vectors in
insertion order) and the parallel article list. -/
structure VectorStore where
  index : List Vec
  articles : List Article
deriving DecidableEq

/-- A fresh store: `faiss.IndexFlatL2(dimension)` with no vectors and an
empty article list. -/
def emptyStore : VectorStore := ⟨[], []⟩

/-- `VectorStore.add_article`.  Returns `False` without mutation when a
record with the same `pmid` is already present; otherwise embeds the
article, appends the vector to the index, stamps `added_date` with the
current time (`now`) and appends the record.  A raised exception inside the
`try` block (modelled: the embedding call returning `none`) is caught and
yields `False`.  The `save_store` call inside does not affect in-memory
state and is modelled separately. -/
def VectorStore.add_article (embed : Article → Option Vec) (now : String)
    (s : VectorStore) (a : Article) : Bool × VectorStore :=
  if s.articles.any (fun x => x.pmid == a.pmid) then
    (false, s)
  else
    match embed a with
    | none => (false, s)
    | some v =>
        (true, { index := s.index ++ [v],
                 articles := s.articles ++ [{ a with added_date := some now }] })

/-- A sequence of `add_article` calls folded over the store (each input is
an article together with the wall-clock time of its insertion). -/
def addSeq (embed : Article → Option Vec) (inputs : List (Article × String))
    (s : VectorStore) : VectorStore :=
  inputs.foldl (fun st p => (st.add_article embed p.2 p.1).2) s

/-- The similarity score `1 / (1 + distance)` computed by `search`. -/
def simScore (d : ℚ) : ℚ := 1 / (1 + d)

/-- Neighbour ordering of the flat L2 index: ascending distance, ties by
insertion position. -/
def distLe (p q : ℕ × ℚ) : Prop := p.2 < q.2 ∨ (p.2 = q.2 ∧ p.1 ≤ q.1)

instance : DecidableRel distLe := fun p q =>
  inferInstanceAs (Decidable (p.2 < q.2 ∨ (p.2 = q.2 ∧ p.1 ≤ q.1)))

instance : IsTotal (ℕ × ℚ) distLe where
  total p q := by
    rcases lt_trichotomy p.2 q.2 with h | h | h
    · exact Or.inl (Or.inl h)
    · rcases Nat.le_total p.1 q.1 with h1 | h1
      · exact Or.inl (Or.inr ⟨h, h1⟩)
      · exact Or.inr (Or.inr ⟨h.symm, h1⟩)
    · exact Or.inr (Or.inl h)

instance : IsTrans (ℕ × ℚ) distLe where
  trans p q r h1 h2 := by
    rcases h1 with h1 | ⟨e1, l1⟩
    · rcases h2 with h2 | ⟨e2, _⟩
      · exact Or.inl (h1.trans h2)
      · exact Or.inl (e2 ▸ h1)
    · rcases h2 with h2 | ⟨e2, l2⟩
      · exact Or.inl (e1 ▸ h2)
      · exact Or.inr ⟨e1.trans e2, l1.trans l2⟩

/-- `faiss.IndexFlatL2.search`: exact k-nearest neighbours of `qv` among
`vecs`, as (position, squared-distance) pairs sorted ascending by distance
(ties by insertion position), truncated to `k` entries. -/
def knn (vecs : List Vec) (qv : Vec) (k : ℕ) : List (ℕ × ℚ) :=
  ((vecs.enum.map (fun p => (p.1, sqDist qv p.2))).insertionSort distLe).take k

/-- The loop body of `VectorStore.search`: for each valid neighbour index,
take `self.articles[idx].copy()` and set `similarity_score` on the copy. -/
def scored (arts : List Article) (pairs : List (ℕ × ℚ)) : List Article :=
  pairs.filterMap
    (fun p => (arts[p.1]?).map
      (fun a => { a with similarity_score := some (simScore p.2) }))

/-- Sort key of the final `sorted(results, key=..., reverse=True)`:
the `similarity_score` entry (always present on results). -/
def scoreKey (a : Article) : ℚ := a.similarity_score.getD 0

/-- Descending-score ordering used by the final stable sort of `search`. -/
def scoreGe (a b : Article) : Prop := scoreKey b ≤ scoreKey a

instance : DecidableRel scoreGe := fun a b =>
  inferInstanceAs (Decidable (scoreKey b ≤ scoreKey a))

instance : IsTotal Article scoreGe where
  total a b := le_total (scoreKey b) (scoreKey a)

instance : IsTrans Article scoreGe where
  trans _ _ _ h1 h2 := le_trans h2 h1

/-- `VectorStore.search`: embed the query, query the index with
`min(k, len(self.articles))`, convert each neighbour distance `d` to
`similarity_score = 1 / (1 + d)` on a copy of the stored record, and return
the results sorted by descending score (Python `sorted` is stable). -/
def VectorStore.search (encode : String → Vec) (s : VectorStore)
    (q : String) (k : ℕ) : List Article :=
  (scored s.articles (knn s.index (encode q) (min k s.articles.length))).insertionSort scoreGe

/-- The on-disk `data/` directory: `faiss_index.bin` and `articles.pkl`.
`none` means the file does not exist. Serialization is modelled as the
identity (FAISS and pickle round-trip their inputs). -/
structure DataDir where
  index_file : Option (List Vec)
  articles_file : Option (List Article)
deriving DecidableEq

/-- `VectorStore.save_store`: write the FAISS index and the article list. -/
def VectorStore.save_store (s : VectorStore) (_d : DataDir) : DataDir :=
  { index_file := some s.index, articles_file := some s.articles }

/-- `VectorStore.load_store`: if both files exist, replace the in-memory
index and article list with their contents; otherwise keep the current
(fresh) state. -/
def VectorStore.load_store (d : DataDir) (s : VectorStore) : VectorStore :=
  match d.index_file, d.articles_file with
  | some i, some arts => { index := i, articles := arts }
  | _, _ => s

/-- One step result of the retry loop in `PubMedCrawler._safe_entrez_call`:
the call result, the list of `time.sleep` durations requested so far (in
seconds, in order), and the list of attempt indices actually tried. -/
def retryGo (outcome : ℕ → Except String α) (maxRetries retryDelay : ℕ) :
    ℕ → ℕ → Except String α × List ℕ × List ℕ
  | 0, _ => (.error "", [], [])
  | fuel + 1, attempt =>
      let pre : List ℕ := if 0 < attempt then [retryDelay * 2 ^ attempt] else []
      match outcome attempt with
      | .ok a => (.ok a, pre, [attempt])
      | .error e =>
          if attempt = maxRetries - 1 then
            (.error e, pre, [attempt])
          else
            let rest := retryGo outcome maxRetries retryDelay fuel (attempt + 1)
            (rest.1, pre ++ [retryDelay] ++ rest.2.1, attempt :: rest.2.2)

/-- `PubMedCrawler._safe_entrez_call`: `max_retries = 3`, `retry_delay = 1`;
`for attempt in range(max_retries)`: sleep `retry_delay * (2 ** attempt)`
before every attempt after the first, call, and on failure either re-raise
(when `attempt == max_retries - 1`) or sleep `retry_delay` and loop.
`outcome n` is the result of the `n`-th call of the wrapped Entrez
function. -/
def safe_entrez_call (outcome : ℕ → Except String α) :
    Except String α × List ℕ × List ℕ :=
  retryGo outcome 3 1 3 0

/-- A Python value as seen by `PubMedCrawler._extract_abstract` after
`Entrez.read`: a string, a list, or a dict (association list). -/
inductive PyVal where
  | str : String → PyVal
  | list : List PyVal → PyVal
  | dict : List (String × PyVal) → PyVal

/-- Python `str(v)` for the values interpolated into f-strings and appended
to `sections`.  On realistic abstract data these are always strings; for a
non-string Python would render its repr, which we abbreviate. -/
def pyStr : PyVal → String
  | .str s => s
  | .list _ => "[...]"
  | .dict _ => "\x7b...\x7d"

/-- Python truthiness of a value (`if content:`). -/
def pyTruthy : PyVal → Bool
  | .str s => !s.isEmpty
  | .list xs => !xs.isEmpty
  | .dict d => !d.isEmpty

/-- The `sections` accumulation loop of `_extract_abstract` over a list-
shaped `AbstractText`: a dict element with a `Label` contributes
`"<label>: <text>"`; a dict element without one contributes its `#text`
(or `_`) content only when truthy; any other element contributes
`str(element)`. -/
def absSections : List PyVal → List String
  | [] => []
  | t :: rest =>
      match t with
      | .dict d =>
          match d.lookup "Label" with
          | some lab =>
              (pyStr lab ++ ": " ++
                (match d.lookup "#text" with
                 | some c => pyStr c
                 | none => "")) :: absSections rest
          | none =>
              let content :=
                match d.lookup "#text" with
                | some c => c
                | none =>
                    match d.lookup "_" with
                    | some c => c
                    | none => .str ""
              if pyTruthy content then pyStr content :: absSections rest
              else absSections rest
      | other => pyStr other :: absSections rest

/-- `PubMedCrawler._extract_abstract` on the `article_data` dict.  Handles
`Abstract` being a dict (with `AbstractText` a string, a list of sections,
or a single possibly-labelled section dict, falling back to
`CopyrightInformation` when `AbstractText` is absent) or a bare string;
anything else yields the empty string. -/
def extract_abstract (article_data : List (String × PyVal)) : String :=
  match article_data.lookup "Abstract" with
  | none => ""
  | some (.dict abstract_data) =>
      (match abstract_data.lookup "AbstractText" with
       | some (.str s) => s
       | some (.list items) => String.intercalate " " (absSections items)
       | some (.dict d) =>
           (match d.lookup "Label" with
            | some lab =>
                pyStr lab ++ ": " ++
                  (match d.lookup "#text" with
                   | some c => pyStr c
                   | none => "")
            | none =>
                match d.lookup "#text" with
                | some c => pyStr c
                | none => "")
       | none =>
           match abstract_data.lookup "CopyrightInformation" with
           | some c => pyStr c
           | none => "")
  | some (.str s) => s
  | some (.list _) => ""

/-- `PubMedCrawler._format_pub_date` on the `PubDate` dict: collect the
`Year`, `Month`, `Day` entries that are present, in that order, and join
them with single spaces; an empty dict (falsy) and an empty part list both
yield the empty string. -/
def format_pub_date (pub_date : List (String × String)) : String :=
  if pub_date.isEmpty then ""
  else
    let date_parts :=
      (match pub_date.lookup "Year" with | some y => [y] | none => []) ++
      (match pub_date.lookup "Month" with | some m => [m] | none => []) ++
      (match pub_date.lookup "Day" with | some d => [d] | none => [])
    if date_parts.isEmpty then "" else String.intercalate " " date_parts

/-- The publication-date contract in the spec's words (used for the
refinement statement): concatenate the year, month and day parts that are
present, space-separated. -/
def pubDateSpec (pub_date : List (String × String)) : String :=
  String.intercalate " "
    ((pub_date.lookup "Year").toList ++ (pub_date.lookup "Month").toList ++
      (pub_date.lookup "Day").toList)

/-! ### Helper lemmas and sample data -/

/-- A concrete document record used to instantiate witnesses. -/
def sampleArticle : Article :=
  { pmid := "123", title := "Title", abstract := "Abst",
    authors := ["Doe, Jane"], journal := "J", publication_date := "2024",
    url := "https://pubmed.ncbi.nlm.nih.gov/123/", keywords := ["k"],
    publication_type := ["Journal Article"] }

/-- A concrete one-article store used to instantiate witnesses. -/
def sampleStore : VectorStore :=
  ⟨[[1, 2]], [{ sampleArticle with added_date := some "t0" }]⟩

/-- A concrete record with a fresh id, used to instantiate witnesses. -/
def freshArticle : Article := { sampleArticle with pmid := "456" }

/-- Squared Euclidean distances are nonnegative. -/
lemma sqDist_nonneg (x y : Vec) : 0 ≤ sqDist x y := by
  unfold sqDist
  apply List.sum_nonneg
  intro a ha
  simp only [List.mem_map] at ha
  obtain ⟨p, _, rfl⟩ := ha
  positivity

/-- The neighbour list returned by the index is sorted by
(distance, insertion position). -/
lemma knn_pairwise (vecs : List Vec) (qv : Vec) (k : ℕ) :
    List.Pairwise distLe (knn vecs qv k) :=
  List.Pairwise.sublist (List.take_sublist _ _)
    (List.sorted_insertionSort distLe _)

/-- Every returned neighbour is an (insertion position, distance) pair of a
stored vector. -/
lemma knn_mem_base (vecs : List Vec) (qv : Vec) (k : ℕ) :
    ∀ p ∈ knn vecs qv k,
      p ∈ vecs.enum.map (fun q => (q.1, sqDist qv q.2)) := by
  intro p hp
  unfold knn at hp
  have h2 := List.take_subset _ _ hp
  simpa [List.mem_insertionSort] using h2

/-- Every returned neighbour distance is nonnegative. -/
lemma knn_dist_nonneg (vecs : List Vec) (qv : Vec) (k : ℕ) :
    ∀ p ∈ knn vecs qv k, 0 ≤ p.2 := by
  intro p hp
  obtain ⟨q, _, rfl⟩ := List.mem_map.mp (knn_mem_base vecs qv k p hp)
  exact sqDist_nonneg _ _

/-- Every returned neighbour position is a valid index into the vectors. -/
lemma knn_idx_lt (vecs : List Vec) (qv : Vec) (k : ℕ) :
    ∀ p ∈ knn vecs qv k, p.1 < vecs.length := by
  intro p hp
  obtain ⟨q, hq, rfl⟩ := List.mem_map.mp (knn_mem_base vecs qv k p hp)
  have hlt : q.1 < vecs.length := by
    have h2 := List.mem_enum_iff_getElem?.mp hq
    exact (List.getElem?_eq_some.mp h2).1
  simpa using hlt

/-- The index returns `min k (number of stored vectors)` neighbours. -/
lemma knn_length (vecs : List Vec) (qv : Vec) (k : ℕ) :
    (knn vecs qv k).length = min k vecs.length := by
  unfold knn
  rw [List.length_take, List.length_insertionSort, List.length_map,
    List.enum_length]

/-- Returned neighbour positions are pairwise distinct. -/
lemma knn_nodup_fst (vecs : List Vec) (qv : Vec) (k : ℕ) :
    ((knn vecs qv k).map Prod.fst).Nodup := by
  unfold knn
  have hbase :
      ((vecs.enum.map (fun q => (q.1, sqDist qv q.2))).map Prod.fst).Nodup := by
    rw [List.map_map]
    exact List.nodup_enum_map_fst vecs
  have hsort :
      (((vecs.enum.map (fun q => (q.1, sqDist qv q.2))).insertionSort
          distLe).map Prod.fst).Nodup := by
    refine (List.Perm.nodup_iff ?_).mpr hbase
    exact (List.perm_insertionSort distLe _).map Prod.fst
  rw [List.map_take]
  exact hsort.sublist (List.take_sublist _ _)

/-- The neighbour list is strictly sorted lexicographically: ascending
distance, with ties strictly ascending in insertion position. -/
lemma knn_pairwise_strict (vecs : List Vec) (qv : Vec) (k : ℕ) :
    List.Pairwise (fun p q : ℕ × ℚ => p.2 < q.2 ∨ (p.2 = q.2 ∧ p.1 < q.1))
      (knn vecs qv k) := by
  have h1 := knn_pairwise vecs qv k
  have h2 : List.Pairwise (fun p q : ℕ × ℚ => p.1 ≠ q.1) (knn vecs qv k) :=
    List.pairwise_map.mp (knn_nodup_fst vecs qv k)
  refine (h1.and h2).imp ?_
  rintro p q ⟨hle, hne⟩
  rcases hle with h | ⟨he, hl⟩
  · exact Or.inl h
  · exact Or.inr ⟨he, lt_of_le_of_ne hl hne⟩

/-- `1 / (1 + d)` is antitone on nonnegative distances. -/
lemma simScore_antitone {d1 d2 : ℚ} (h0 : 0 ≤ d1) (h : d1 ≤ d2) :
    simScore d2 ≤ simScore d1 := by
  unfold simScore
  exact one_div_le_one_div_of_le (by linarith) (by linarith)

/-- The scored result list inherits descending-score order from the
distance-ascending neighbour list. -/
lemma scored_sorted (arts : List Article) (pairs : List (ℕ × ℚ))
    (hnn : ∀ p ∈ pairs, 0 ≤ p.2) (hpw : List.Pairwise distLe pairs) :
    List.Sorted scoreGe (scored arts pairs) := by
  unfold scored
  rw [List.Sorted, List.pairwise_filterMap]
  refine hpw.imp_of_mem ?_
  intro p q hp _ hle
  intro x hx y hy
  simp only [Option.mem_def, Option.map_eq_some'] at hx hy
  obtain ⟨a, _, rfl⟩ := hx
  obtain ⟨b, _, rfl⟩ := hy
  show scoreKey _ ≤ scoreKey _
  unfold scoreKey
  simp only [Option.getD_some]
  refine simScore_antitone (hnn p hp) ?_
  rcases hle with h | ⟨he, _⟩
  · exact le_of_lt h
  · exact le_of_eq he

/-- The final stable sort of `search` is the identity: results already come
out in neighbour (distance-ascending, hence score-descending) order. -/
lemma search_eq_scored (encode : String → Vec) (s : VectorStore) (q : String)
    (k : ℕ) :
    s.search encode q k
      = scored s.articles (knn s.index (encode q) (min k s.articles.length)) := by
  unfold VectorStore.search
  exact List.Sorted.insertionSort_eq
    (scored_sorted _ _ (knn_dist_nonneg _ _ _) (knn_pairwise _ _ _))

/-- When every neighbour position is valid, scoring drops no result. -/
lemma scored_length (arts : List Article) :
    ∀ pairs : List (ℕ × ℚ), (∀ p ∈ pairs, p.1 < arts.length) →
      (scored arts pairs).length = pairs.length := by
  intro pairs
  induction pairs with
  | nil => intro _; rfl
  | cons p ps ih =>
      intro h
      have hp : p.1 < arts.length := h p (by simp)
      obtain ⟨a, hsome⟩ : ∃ a, arts[p.1]? = some a := by
        rw [List.getElem?_eq_getElem hp]
        exact ⟨_, rfl⟩
      simp only [scored, List.filterMap_cons, hsome, Option.map_some']
      have hps := ih (fun q hq => h q (List.mem_cons_of_mem p hq))
      simp only [scored] at hps
      simp [hps]

/-- `add_article` either fails leaving the store untouched, or succeeds
appending exactly one vector and one stamped record. -/
lemma add_article_cases (embed : Article → Option Vec) (now : String)
    (s : VectorStore) (a : Article) :
    s.add_article embed now a = (false, s) ∨
    (∃ v, embed a = some v ∧
      s.add_article embed now a =
        (true, ⟨s.index ++ [v],
                s.articles ++ [{ a with added_date := some now }]⟩)) := by
  unfold VectorStore.add_article
  by_cases h : s.articles.any (fun x => x.pmid == a.pmid)
  · left
    simp [h]
  · cases he : embed a with
    | none => left; simp [h, he]
    | some v => right; exact ⟨v, rfl, by simp [h, he]⟩

/-- A single `add_article` call preserves the list/index parallelism. -/
lemma add_article_inv (embed : Article → Option Vec) (now : String)
    (s : VectorStore) (a : Article)
    (h : s.index.length = s.articles.length) :
    (s.add_article embed now a).2.index.length
      = (s.add_article embed now a).2.articles.length := by
  rcases add_article_cases embed now s a with h1 | ⟨v, _, h1⟩ <;> simp [h1, h]

/-- Any fold of `add_article` calls preserves the parallelism invariant. -/
lemma addSeq_inv (embed : Article → Option Vec) :
    ∀ (inputs : List (Article × String)) (s : VectorStore),
      s.index.length = s.articles.length →
      (addSeq embed inputs s).index.length
        = (addSeq embed inputs s).articles.length := by
  intro inputs
  induction inputs with
  | nil => intro s h; simpa [addSeq] using h
  | cons p ps ih =>
      intro s h
      have : addSeq embed (p :: ps) s
          = addSeq embed ps (s.add_article embed p.2 p.1).2 := by
        simp [addSeq]
      rw [this]
      exact ih _ (add_article_inv embed p.2 s p.1 h)

/-! ### Claims -/

/-- C1: for every record `r` not yet cached (and whose embedding
succeeds), `add_article r` followed by `add_article r` returns `true` then
`false`; the second call leaves the store exactly as the first left it
(no mutation of the index or the record list), and the record count grows
by exactly 1, not 2. -/
theorem c1_dedup_on_insert (embed : Article → Option Vec) (now now' : String)
    (s : VectorStore) (a : Article) (v : Vec)
    (hfresh : ∀ x ∈ s.articles, x.pmid ≠ a.pmid)
    (hembed : embed a = some v) :
    (s.add_article embed now a).1 = true ∧
    ((s.add_article embed now a).2.add_article embed now' a).1 = false ∧
    ((s.add_article embed now a).2.add_article embed now' a).2
      = (s.add_article embed now a).2 ∧
    (s.add_article embed now a).2.articles.length = s.articles.length + 1 ∧
    ((s.add_article embed now a).2.add_article embed now' a).2.articles.length
      = s.articles.length + 1 := by
  have hany : s.articles.any (fun x => x.pmid == a.pmid) = false := by
    simp only [List.any_eq_false, beq_iff_eq]
    exact fun x hx => hfresh x hx
  have h1 : s.add_article embed now a =
      (true, ⟨s.index ++ [v],
              s.articles ++ [{ a with added_date := some now }]⟩) := by
    unfold VectorStore.add_article
    simp [hany, hembed]
  have hany2 : ((s.articles ++ [{ a with added_date := some now }]).any
      (fun x => x.pmid == a.pmid)) = true := by
    simp
  have h2 : ((s.add_article embed now a).2.add_article embed now' a)
      = (false, (s.add_article embed now a).2) := by
    rw [h1]
    unfold VectorStore.add_article
    simp [hany2, h1]
  refine ⟨by rw [h1], by rw [h2], by rw [h2], by rw [h1]; simp, ?_⟩
  rw [h2]
  rw [h1]
  simp

/-- Witness for C1 on a fresh store and a concrete record. -/
theorem c1_dedup_on_insert_wit :
    (emptyStore.add_article (fun _ => some [1]) "t1" sampleArticle).1 = true ∧
    ((emptyStore.add_article (fun _ => some [1]) "t1" sampleArticle).2.add_article
        (fun _ => some [1]) "t2" sampleArticle).1 = false ∧
    ((emptyStore.add_article (fun _ => some [1]) "t1" sampleArticle).2.add_article
        (fun _ => some [1]) "t2" sampleArticle).2
      = (emptyStore.add_article (fun _ => some [1]) "t1" sampleArticle).2 ∧
    (emptyStore.add_article (fun _ => some [1]) "t1" sampleArticle).2.articles.length
      = emptyStore.articles.length + 1 ∧
    ((emptyStore.add_article (fun _ => some [1]) "t1" sampleArticle).2.add_article
        (fun _ => some [1]) "t2" sampleArticle).2.articles.length
      = emptyStore.articles.length + 1 :=
  c1_dedup_on_insert (fun _ => some [1]) "t1" "t2" emptyStore sampleArticle [1]
    (by intro x hx; simp [emptyStore] at hx) rfl

/-- C2: a successful `add_article` grows the record list and the index by
one each, a failed one changes neither, and consequently after any
sequence of `add_article` calls starting from a state where the record
list and the index have equal length (in particular the empty store), they
still have equal length. -/
theorem c2_parallel_invariant (embed : Article → Option Vec) (now : String)
    (s : VectorStore) (a : Article) :
    ((s.add_article embed now a).1 = true →
      (s.add_article embed now a).2.articles.length = s.articles.length + 1 ∧
      (s.add_article embed now a).2.index.length = s.index.length + 1) ∧
    ((s.add_article embed now a).1 = false →
      (s.add_article embed now a).2 = s) ∧
    (∀ (inputs : List (Article × String)) (s0 : VectorStore),
      s0.index.length = s0.articles.length →
      (addSeq embed inputs s0).index.length
        = (addSeq embed inputs s0).articles.length) := by
  refine ⟨?_, ?_, fun inputs s0 h => addSeq_inv embed inputs s0 h⟩
  · intro htrue
    rcases add_article_cases embed now s a with h1 | ⟨v, _, h1⟩
    · rw [h1] at htrue; cases htrue
    · rw [h1]; simp
  · intro hfalse
    rcases add_article_cases embed now s a with h1 | ⟨v, _, h1⟩
    · rw [h1]
    · rw [h1] at hfalse; cases hfalse

/-- Witness for C2 on a fresh store and a concrete add sequence. -/
theorem c2_parallel_invariant_wit :
    ((emptyStore.add_article (fun _ => some [1]) "t" sampleArticle).2.articles.length
        = emptyStore.articles.length + 1 ∧
      (emptyStore.add_article (fun _ => some [1]) "t" sampleArticle).2.index.length
        = emptyStore.index.length + 1) ∧
    (addSeq (fun _ => some [1]) [(sampleArticle, "t"), (sampleArticle, "t2")]
        emptyStore).index.length
      = (addSeq (fun _ => some [1]) [(sampleArticle, "t"), (sampleArticle, "t2")]
        emptyStore).articles.length :=
  ⟨(c2_parallel_invariant (fun _ => some [1]) "t" emptyStore sampleArticle).1
      (by decide),
   (c2_parallel_invariant (fun _ => some [1]) "t" emptyStore sampleArticle).2.2
      [(sampleArticle, "t"), (sampleArticle, "t2")] emptyStore rfl⟩

/-- C10: `add_article` is total — it returns a boolean for every input;
whenever it returns `false` the in-memory store is unchanged, and a
`false` return does not imply the record's id was already present: it also
arises when the embedding call fails on a fresh id. -/
theorem c10_add_article_total (embed : Article → Option Vec) (now : String)
    (s : VectorStore) (a : Article) :
    ((s.add_article embed now a).1 = false →
      (s.add_article embed now a).2 = s) ∧
    (∃ (embed0 : Article → Option Vec) (s0 : VectorStore) (a0 : Article)
        (now0 : String),
      (s0.add_article embed0 now0 a0).1 = false ∧
      ∀ x ∈ s0.articles, x.pmid ≠ a0.pmid) := by
  constructor
  · intro hfalse
    rcases add_article_cases embed now s a with h1 | ⟨v, _, h1⟩
    · rw [h1]
    · rw [h1] at hfalse; cases hfalse
  · refine ⟨fun _ => none, emptyStore, sampleArticle, "t", by decide, ?_⟩
    intro x hx
    simp [emptyStore] at hx

/-- Witness for C10: a failing embedding on a fresh store returns `false`
and leaves the store unchanged. -/
theorem c10_add_article_total_wit :
    (emptyStore.add_article (fun _ => none) "t" sampleArticle).2 = emptyStore :=
  (c10_add_article_total (fun _ => none) "t" emptyStore sampleArticle).1
    (by decide)

/-- C6: `save_store` followed by `load_store` into a fresh empty store
reproduces the identical ordered record list and an index of identical
size (indeed the identical index): the two files are written and read as a
unit. -/
theorem c6_persist_roundtrip (s : VectorStore) (d : DataDir) :
    (VectorStore.load_store (s.save_store d) emptyStore).articles = s.articles ∧
    (VectorStore.load_store (s.save_store d) emptyStore).index.length
      = s.index.length ∧
    VectorStore.load_store (s.save_store d) emptyStore = s := by
  refine ⟨rfl, rfl, ?_⟩
  simp [VectorStore.save_store, VectorStore.load_store]

/-- C5 counterexample: on a call whose three attempts all fail, the sleep
schedule requested from `time.sleep` is `[1, 2, 1, 4]` seconds — not the
two backoff waits `[1, 2]` stated by the claim. -/
theorem c5_retry_cex :
    (safe_entrez_call (fun _ => (.error "boom" : Except String Nat))).2.1
      = [1, 2, 1, 4] ∧
    ([1, 2, 1, 4] : List ℕ) ≠ [1, 2] := by
  constructor
  · decide
  · decide

/-- C5 amended: every external call is attempted at most 3 times; when all
three attempts fail, the third error is raised to the caller, no 4th
attempt is made (the attempts tried are exactly 0, 1, 2), and the client
sleeps `[1, 2, 1, 4]` seconds: before retry attempt `n` (0-based) it
sleeps `1 * 2 ^ n` seconds and additionally sleeps 1 second right after
each non-final failure. -/
theorem c5_retry_amended (outcome : ℕ → Except String Nat) :
    (safe_entrez_call outcome).2.2.length ≤ 3 ∧
    (∀ e : ℕ → String, (∀ n, n < 3 → outcome n = .error (e n)) →
      (safe_entrez_call outcome).1 = .error (e 2) ∧
      (safe_entrez_call outcome).2.1 = [1, 2, 1, 4] ∧
      (safe_entrez_call outcome).2.2 = [0, 1, 2]) := by
  constructor
  · unfold safe_entrez_call
    rcases h0 : outcome 0 with e0 | a0 <;>
      rcases h1 : outcome 1 with e1 | a1 <;>
        rcases h2 : outcome 2 with e2 | a2 <;>
          simp [retryGo, h0, h1, h2]
  · intro e h
    have h0 := h 0 (by decide)
    have h1 := h 1 (by decide)
    have h2 := h 2 (by decide)
    unfold safe_entrez_call
    refine ⟨?_, ?_, ?_⟩ <;> simp [retryGo, h0, h1, h2]

/-- Witness for C5 (amended) on a concrete fully-failing outcome. -/
theorem c5_retry_amended_wit :
    (safe_entrez_call (fun n => (.error (toString n) : Except String Nat))).1
      = .error (toString 2) ∧
    (safe_entrez_call (fun n => (.error (toString n) : Except String Nat))).2.1
      = [1, 2, 1, 4] ∧
    (safe_entrez_call (fun n => (.error (toString n) : Except String Nat))).2.2
      = [0, 1, 2] :=
  (c5_retry_amended (fun n => .error (toString n))).2 (fun n => toString n)
    (fun _ _ => rfl)

/-- The label/text `sections` loop on a list of labelled section dicts
produces exactly the `"<label>: <text>"` strings in order. -/
lemma absSections_labeled (secs : List (String × String)) :
    absSections (secs.map
        (fun p => PyVal.dict [("Label", .str p.1), ("#text", .str p.2)]))
      = secs.map (fun p => p.1 ++ ": " ++ p.2) := by
  induction secs with
  | nil => rfl
  | cons p ps ih => simp [absSections, List.lookup, pyStr, ih]

/-- The `sections` loop on a mixed list of labelled and unlabelled section
dicts (label `some lab` or `none`, text in `#text`): a labelled section
contributes `"<label>: <text>"`, an unlabelled one contributes its bare
text without a prefix, and only when that text is non-empty (truthy). -/
lemma absSections_mixed (secs : List (Option String × String)) :
    absSections (secs.map (fun p =>
        match p.1 with
        | some lab => PyVal.dict [("Label", .str lab), ("#text", .str p.2)]
        | none => PyVal.dict [("#text", .str p.2)]))
      = secs.filterMap (fun p =>
          match p.1 with
          | some lab => some (lab ++ ": " ++ p.2)
          | none => if p.2.isEmpty then none else some p.2) := by
  induction secs with
  | nil => rfl
  | cons p ps ih =>
      obtain ⟨l, t⟩ := p
      cases l with
      | some lab => simp [absSections, List.lookup, pyStr, ih]
      | none =>
          by_cases ht : t.isEmpty <;>
            simp [absSections, List.lookup, pyStr, pyTruthy, ht, ih]

/-- C7: abstract extraction handles the three upstream shapes — a single
string, a single labelled section object, and a list of labelled and
unlabelled sections — concatenating section text in order, prefixing a
section with `"<label>: "` exactly when a label is present (an unlabelled
section contributes its bare, truthy text without a prefix), and falls
back to `CopyrightInformation` when no `AbstractText` exists; in
particular `[{"Label":"METHODS","#text":"x"}, {"Label":"RESULTS","#text":"y"}]`
normalizes to `"METHODS: x RESULTS: y"`, and the mixed
`[{"Label":"METHODS","#text":"x"}, {"#text":"y"}]` to `"METHODS: x y"`. -/
theorem c7_abstract_normalization :
    (∀ s : String,
      extract_abstract [("Abstract", .dict [("AbstractText", .str s)])] = s) ∧
    (∀ lab txt : String,
      extract_abstract [("Abstract", .dict [("AbstractText",
          .dict [("Label", .str lab), ("#text", .str txt)])])]
        = lab ++ ": " ++ txt) ∧
    (∀ secs : List (String × String),
      extract_abstract [("Abstract", .dict [("AbstractText",
          .list (secs.map
            (fun p => PyVal.dict [("Label", .str p.1), ("#text", .str p.2)])))])]
        = String.intercalate " " (secs.map (fun p => p.1 ++ ": " ++ p.2))) ∧
    (∀ secs : List (Option String × String),
      extract_abstract [("Abstract", .dict [("AbstractText",
          .list (secs.map (fun p =>
            match p.1 with
            | some lab => PyVal.dict [("Label", .str lab), ("#text", .str p.2)]
            | none => PyVal.dict [("#text", .str p.2)])))])]
        = String.intercalate " " (secs.filterMap (fun p =>
            match p.1 with
            | some lab => some (lab ++ ": " ++ p.2)
            | none => if p.2.isEmpty then none else some p.2))) ∧
    (∀ c : String,
      extract_abstract [("Abstract", .dict [("CopyrightInformation", .str c)])]
        = c) ∧
    extract_abstract [("Abstract", .dict [("AbstractText", .list
        [.dict [("Label", .str "METHODS"), ("#text", .str "x")],
         .dict [("Label", .str "RESULTS"), ("#text", .str "y")]])])]
      = "METHODS: x RESULTS: y" ∧
    extract_abstract [("Abstract", .dict [("AbstractText", .list
        [.dict [("Label", .str "METHODS"), ("#text", .str "x")],
         .dict [("#text", .str "y")]])])]
      = "METHODS: x y" := by
  refine ⟨?_, ?_, ?_, ?_, ?_, ?_, ?_⟩
  · intro s; rfl
  · intro lab txt; rfl
  · intro secs
    simp [extract_abstract, List.lookup, absSections_labeled]
  · intro secs
    simp [extract_abstract, List.lookup, absSections_mixed]
  · intro c; rfl
  · decide
  · decide

/-- C8 counterexample: a `PubDate` carrying a month but no year formats to
the month, not to the empty string claimed for year-less dates. -/
theorem c8_pub_date_cex :
    format_pub_date [("Month", "Jan")] = "Jan" ∧ ("Jan" : String) ≠ "" := by
  constructor
  · decide
  · decide

/-- C8 amended: `publication_date` is the space-separated concatenation of
whichever of the year, month and day parts are present, and is the empty
string when none of the three parts is present (not merely when the year
is absent). -/
theorem c8_pub_date_amended (pd : List (String × String)) :
    format_pub_date pd = pubDateSpec pd ∧
    ((pd.lookup "Year" = none ∧ pd.lookup "Month" = none ∧
        pd.lookup "Day" = none) →
      format_pub_date pd = "") := by
  have main : format_pub_date pd = pubDateSpec pd := by
    unfold format_pub_date pubDateSpec
    by_cases hpd : pd.isEmpty
    · have : pd = [] := by simpa using hpd
      subst this
      simp only [List.lookup]
      decide
    · rcases hY : pd.lookup "Year" with _ | y <;>
        rcases hM : pd.lookup "Month" with _ | m <;>
          rcases hD : pd.lookup "Day" with _ | d <;>
            simp [hpd, hY, hM, hD, Option.toList, String.intercalate]
  refine ⟨main, fun h => ?_⟩
  rw [main]
  unfold pubDateSpec
  rw [h.1, h.2.1, h.2.2]
  rfl

/-- Witness for C8 (amended) on a `MedlineDate`-style dict carrying none of
the three parts. -/
theorem c8_pub_date_amended_wit :
    format_pub_date [("MedlineDate", "2024 Jan-Feb")]
      = pubDateSpec [("MedlineDate", "2024 Jan-Feb")] ∧
    format_pub_date [("MedlineDate", "2024 Jan-Feb")] = "" :=
  ⟨(c8_pub_date_amended [("MedlineDate", "2024 Jan-Feb")]).1,
   (c8_pub_date_amended [("MedlineDate", "2024 Jan-Feb")]).2
     ⟨by decide, by decide, by decide⟩⟩

/-- C3: `search` converts each neighbour distance `d` to
`similarity_score = 1 / (1 + d)`, which lies in `(0, 1]` and is strictly
decreasing in `d` on the nonnegative distances the index produces; results
come back sorted by descending score, and they are exactly the neighbour
list in order — which is strictly sorted by (distance, insertion
position), so a strictly smaller distance is ranked strictly earlier and
ties on exactly equal distance are broken by insertion order. -/
theorem c3_score_ordering (encode : String → Vec) (s : VectorStore)
    (q : String) (k : ℕ) :
    (∀ d : ℚ, 0 ≤ d → 0 < simScore d ∧ simScore d ≤ 1) ∧
    (∀ d1 d2 : ℚ, 0 ≤ d1 → d1 < d2 → simScore d2 < simScore d1) ∧
    List.Sorted scoreGe (s.search encode q k) ∧
    s.search encode q k
      = scored s.articles (knn s.index (encode q) (min k s.articles.length)) ∧
    List.Pairwise (fun p q : ℕ × ℚ => p.2 < q.2 ∨ (p.2 = q.2 ∧ p.1 < q.1))
      (knn s.index (encode q) (min k s.articles.length)) := by
  refine ⟨?_, ?_, ?_, search_eq_scored encode s q k, knn_pairwise_strict _ _ _⟩
  · intro d hd
    constructor
    · unfold simScore
      exact one_div_pos.mpr (by linarith)
    · unfold simScore
      rw [div_le_one (by linarith)]
      linarith
  · intro d1 d2 h0 h
    unfold simScore
    exact one_div_lt_one_div_of_lt (by linarith) (by linarith)
  · unfold VectorStore.search
    exact List.sorted_insertionSort scoreGe _

/-- Witness for C3 at concrete distances and a concrete one-article
store. -/
theorem c3_score_ordering_wit :
    (0 < simScore 2 ∧ simScore 2 ≤ 1) ∧ simScore 3 < simScore 2 ∧
    List.Sorted scoreGe (VectorStore.search (fun _ => [0, 0]) sampleStore "q" 3) :=
  ⟨(c3_score_ordering (fun _ => [0, 0]) sampleStore "q" 3).1 2 (by decide),
   (c3_score_ordering (fun _ => [0, 0]) sampleStore "q" 3).2.1 2 3 (by decide)
     (by decide),
   (c3_score_ordering (fun _ => [0, 0]) sampleStore "q" 3).2.2.1⟩

/-- C4: over a store whose index and record list agree in length,
`search(query, k)` returns exactly `min k (store size)` results — `k`
larger than the store yields store-size results, and an empty store yields
the empty list. -/
theorem c4_clamping (encode : String → Vec) (s : VectorStore) (q : String)
    (k : ℕ) (hlen : s.index.length = s.articles.length) :
    (s.search encode q k).length = min k s.articles.length ∧
    (s.articles = [] → s.search encode q k = []) := by
  have hmain : (s.search encode q k).length = min k s.articles.length := by
    rw [search_eq_scored]
    rw [scored_length s.articles _
      (fun p hp => lt_of_lt_of_eq (knn_idx_lt s.index (encode q) _ p hp) hlen)]
    rw [knn_length, hlen]
    exact Nat.min_eq_left (Nat.min_le_right _ _)
  refine ⟨hmain, fun hnil => ?_⟩
  have h0 : (s.search encode q k).length = 0 := by
    rw [hmain, hnil]
    simp
  exact List.length_eq_zero.mp h0

/-- Witness for C4 on the empty store and on a one-article store with
`k = 5`. -/
theorem c4_clamping_wit :
    (VectorStore.search (fun _ => [0]) emptyStore "q" 5).length
      = min 5 emptyStore.articles.length ∧
    (VectorStore.search (fun _ => [0, 0]) sampleStore "q" 5).length
      = min 5 sampleStore.articles.length :=
  ⟨(c4_clamping (fun _ => [0]) emptyStore "q" 5 rfl).1,
   (c4_clamping (fun _ => [0, 0]) sampleStore "q" 5 rfl).1⟩

/-- C9: every record returned by `search` is a copy of a stored record
with only `similarity_score` set (the stored originals are untouched), and
the only mutation entry point, `add_article`, never introduces a stored
record carrying a `similarity_score` — so stored records never carry
one. -/
theorem c9_search_frame (encode : String → Vec) (s : VectorStore) (q : String)
    (k : ℕ) :
    (∀ r ∈ s.search encode q k, ∃ a ∈ s.articles, ∃ d : ℚ,
        r = { a with similarity_score := some (simScore d) }) ∧
    (∀ (embed : Article → Option Vec) (now : String) (a : Article),
      (∀ x ∈ s.articles, x.similarity_score = none) →
      a.similarity_score = none →
      ∀ x ∈ (s.add_article embed now a).2.articles,
        x.similarity_score = none) := by
  constructor
  · intro r hr
    unfold VectorStore.search at hr
    rw [List.mem_insertionSort] at hr
    unfold scored at hr
    rw [List.mem_filterMap] at hr
    obtain ⟨p, hp, hpr⟩ := hr
    rw [Option.map_eq_some'] at hpr
    obtain ⟨a, ha, rfl⟩ := hpr
    exact ⟨a, List.getElem?_mem ha, p.2, rfl⟩
  · intro embed now a hall hnone x hx
    rcases add_article_cases embed now s a with h1 | ⟨v, _, h1⟩
    · rw [h1] at hx
      exact hall x hx
    · rw [h1] at hx
      rcases List.mem_append.mp hx with h | h
      · exact hall x h
      · have hxa : x = { a with added_date := some now } := by simpa using h
        rw [hxa]
        simpa using hnone

/-- Witness for C9: after adding a fresh record to a score-free store, the
previously stored record still carries no `similarity_score`. -/
theorem c9_search_frame_wit :
    ((sampleStore.add_article (fun _ => some [3]) "t2" freshArticle).2.articles.get
        ⟨0, by decide⟩).similarity_score = none :=
  (c9_search_frame (fun _ => [0, 0]) sampleStore "q" 1).2 (fun _ => some [3]) "t2"
    freshArticle (by decide) rfl _ (List.get_mem _ _ _)

end MedCrawler
